import Mathlib

/-!
Shallow embedding of the L-system renderer in `src/main.rs` (crate `dollop`).

The source works over `f32` with `cos`/`sin` from the standard library; we
embed the scalar type as an arbitrary linear ordered field `R` together with
an abstract pair of functions `Trig.cos`, `Trig.sin : R → R`, and the constant
`f32::PI()` as an explicit parameter `pi : R`.  Every panic site of the source
(`stack.pop().unwrap()`) is modelled by `Option`: `none` means the process
aborts.
-/

namespace Dollop

/-- Embeds `enum Variables { A, B, C, D, E, F, G, H }`. -/
inductive Variables where
  | A
  | B
  | C
  | D
  | E
  | F
  | G
  | H
deriving DecidableEq

/-- Embeds `enum Action { Rotate(f32), DrawLine(Length), Push, Pop }`. -/
inductive Action (R : Type) where
  | Rotate (rad : R)
  | DrawLine (length : R)
  | Push
  | Pop
deriving DecidableEq

/-- Embeds `enum LSystemSymbol { Variable((Variables, Vec<Action>)), Constant(Vec<Action>) }`. -/
inductive LSystemSymbol (R : Type) where
  | Variable (v : Variables) (actions : List (Action R))
  | Constant (actions : List (Action R))
deriving DecidableEq

/-- Embeds `struct Config { position: Point2<f32>, radians: f32 }`. -/
structure Config (R : Type) where
  position : R × R
  radians : R
deriving DecidableEq

/-- Embeds `struct LSystem { state: Vec<LSystemSymbol>, dimensions: Vector2<f32> }`. -/
structure LSystem (R : Type) where
  state : List (LSystemSymbol R)
  dimensions : R × R
deriving DecidableEq

/-- The trigonometric primitives the source takes from `f32`. -/
structure Trig (R : Type) where
  cos : R → R
  sin : R → R

/-- A line primitive as emitted by `draw.line().start(..).end(..)`; `color` is
`some (r,g,b)` when the source adds an explicit `.rgb(r,g,b)` call and `none`
when it leaves the library default. -/
structure Line (R : Type) where
  start : R × R
  endp : R × R
  color : Option (R × R × R)
deriving DecidableEq

variable {R : Type} [LinearOrderedField R]

/-- Embeds `LSystem::axiom_config` (the source name contains a Lean keyword):
position `(0,0)`, heading `PI * 0.5`. -/
def startConfig (pi : R) : Config R :=
  { position := (0, 0), radians := pi * (1 / 2) }

/-- Embeds `LSystem::axiom` (renamed for the same reason as `startConfig`):
the single symbol `Variable((A, vec![DrawLine(10.0)]))` with cached
dimensions `(0, 10)`. -/
def startSystem : LSystem R :=
  { state := [LSystemSymbol.Variable Variables.A [Action.DrawLine 10]]
    dimensions := (0, 10) }

/-- State threaded through `LSystem::draw`: the mutable cursor `curr_state`,
the save `stack`, and the lines emitted so far (in emission order). -/
structure DrawSt (R : Type) where
  cursor : Config R
  stack : List (Config R)
  output : List (Line R)
deriving DecidableEq

/-- One action of the `LSystemSymbol::Constant` branch of `LSystem::draw`.
The emitted line carries no explicit color (`.finish()` with no `.rgb`).
`none` is the `stack.pop().unwrap()` panic on an empty stack. -/
def drawStepConst (trig : Trig R) (s : DrawSt R) : Action R → Option (DrawSt R)
  | Action.DrawLine len =>
    let np : R × R := (s.cursor.position.1 + trig.cos s.cursor.radians * len,
                       s.cursor.position.2 + trig.sin s.cursor.radians * len)
    some { cursor := { position := np, radians := s.cursor.radians }
           stack := s.stack
           output := s.output ++ [{ start := s.cursor.position, endp := np, color := none }] }
  | Action.Rotate rad =>
    some { s with cursor := { s.cursor with radians := s.cursor.radians + rad } }
  | Action.Push =>
    some { s with stack := s.cursor :: s.stack }
  | Action.Pop =>
    match s.stack with
    | [] => none
    | c :: rest => some { s with cursor := c, stack := rest }

/-- One action of the `LSystemSymbol::Variable` branch of `LSystem::draw`.
Identical to `drawStepConst` except the emitted line carries the explicit
color `.rgb(0.0, 0.0, 0.0)`. -/
def drawStepVar (trig : Trig R) (s : DrawSt R) : Action R → Option (DrawSt R)
  | Action.DrawLine len =>
    let np : R × R := (s.cursor.position.1 + trig.cos s.cursor.radians * len,
                       s.cursor.position.2 + trig.sin s.cursor.radians * len)
    some { cursor := { position := np, radians := s.cursor.radians }
           stack := s.stack
           output := s.output ++ [{ start := s.cursor.position, endp := np, color := some (0, 0, 0) }] }
  | Action.Rotate rad =>
    some { s with cursor := { s.cursor with radians := s.cursor.radians + rad } }
  | Action.Push =>
    some { s with stack := s.cursor :: s.stack }
  | Action.Pop =>
    match s.stack with
    | [] => none
    | c :: rest => some { s with cursor := c, stack := rest }

/-- Run a list of actions through a (possibly failing) step function, as the
inner `for action in actions` loops do. -/
def runActions {St : Type} (step : St → Action R → Option St) : St → List (Action R) → Option St
  | s, [] => some s
  | s, a :: rest =>
    match step s a with
    | none => none
    | some s' => runActions step s' rest

/-- Run a list of symbols through a (possibly failing) per-symbol step, as the
outer `for symbol in &self.state` loops do. -/
def runSymbols {St : Type} {A : Type} (symStep : St → A → Option St) : St → List A → Option St
  | s, [] => some s
  | s, sym :: rest =>
    match symStep s sym with
    | none => none
    | some s' => runSymbols symStep s' rest

/-- Dispatch of `LSystem::draw` on the symbol kind: `Constant` actions go to
the branch without `.rgb`, `Variable` actions to the branch with
`.rgb(0.0,0.0,0.0)`. -/
def drawSymbol (trig : Trig R) (s : DrawSt R) : LSystemSymbol R → Option (DrawSt R)
  | LSystemSymbol.Constant acts => runActions (drawStepConst trig) s acts
  | LSystemSymbol.Variable _ acts => runActions (drawStepVar trig) s acts

/-- Embeds `LSystem::draw`: cursor starts from `axiom_config` with
`position.y -= dimensions.y * 0.5`, stack starts empty; returns the emitted
lines in order, or `none` when a `Pop` hits an empty stack (source panic). -/
def LSystem.draw (pi : R) (trig : Trig R) (lsys : LSystem R) : Option (List (Line R)) :=
  let c0 := startConfig (R := R) pi
  let c1 : Config R := { c0 with position := (c0.position.1, c0.position.2 - lsys.dimensions.2 * (1 / 2)) }
  (runSymbols (drawSymbol trig) { cursor := c1, stack := [], output := [] } lsys.state).map DrawSt.output

/-- State threaded through `get_drawing_dimensions`: cursor, save stack and
the running `min` / `max` corners. -/
structure DimSt (R : Type) where
  cursor : Config R
  stack : List (Config R)
  minC : R × R
  maxC : R × R
deriving DecidableEq

/-- One action of `get_drawing_dimensions` (its `Constant` and `Variable`
match arms are textually identical, so a single step embeds both): a
`DrawLine` moves the cursor and then compares the new position against the
running corners with the source's four `if`s. -/
def dimStep (trig : Trig R) (s : DimSt R) : Action R → Option (DimSt R)
  | Action.DrawLine len =>
    let np : R × R := (s.cursor.position.1 + trig.cos s.cursor.radians * len,
                       s.cursor.position.2 + trig.sin s.cursor.radians * len)
    some { cursor := { position := np, radians := s.cursor.radians }
           stack := s.stack
           minC := ((if np.1 < s.minC.1 then np.1 else s.minC.1),
                    (if np.2 < s.minC.2 then np.2 else s.minC.2))
           maxC := ((if np.1 > s.maxC.1 then np.1 else s.maxC.1),
                    (if np.2 > s.maxC.2 then np.2 else s.maxC.2)) }
  | Action.Rotate rad =>
    some { s with cursor := { s.cursor with radians := s.cursor.radians + rad } }
  | Action.Push =>
    some { s with stack := s.cursor :: s.stack }
  | Action.Pop =>
    match s.stack with
    | [] => none
    | c :: rest => some { s with cursor := c, stack := rest }

/-- Per-symbol dispatch of `get_drawing_dimensions` (both arms identical). -/
def dimSymbol (trig : Trig R) (s : DimSt R) : LSystemSymbol R → Option (DimSt R)
  | LSystemSymbol.Constant acts => runActions (dimStep trig) s acts
  | LSystemSymbol.Variable _ acts => runActions (dimStep trig) s acts

/-- Embeds `get_drawing_dimensions`: cursor starts from `axiom_config`,
`min = max = (0,0)`; returns `(max.x - min.x, max.y - min.y)`, or `none`
when a `Pop` hits an empty stack (source panic). -/
def get_drawing_dimensions (pi : R) (trig : Trig R) (lsys : LSystem R) : Option (R × R) :=
  (runSymbols (dimSymbol trig)
      { cursor := startConfig pi, stack := [], minC := (0, 0), maxC := (0, 0) }
      lsys.state).map
    fun s => (s.maxC.1 - s.minC.1, s.maxC.2 - s.minC.2)

/-- Embeds `rules1`: the hardcoded rule table (`f32::PI() * 0.25` becomes
`pi * (1/4)`). Variants other than `A` and `B` fall to the catch-all arm and
produce the empty production. -/
def rules1 (pi : R) : Variables → List (LSystemSymbol R)
  | Variables.A =>
    [ LSystemSymbol.Variable Variables.B [Action.DrawLine 10],
      LSystemSymbol.Constant [Action.Push, Action.Rotate (pi * (1 / 4))],
      LSystemSymbol.Variable Variables.A [Action.DrawLine 10],
      LSystemSymbol.Constant [Action.Pop, Action.Rotate (pi * (-(1 / 4)))],
      LSystemSymbol.Variable Variables.A [Action.DrawLine 10] ]
  | Variables.B =>
    [ LSystemSymbol.Variable Variables.B [Action.DrawLine 10],
      LSystemSymbol.Variable Variables.B [Action.DrawLine 10] ]
  | _ => []

/-- The state rewriting performed by the loop in `proceed_system`: constants
are copied (`c.to_vec()`), and for every `Variable((v, actions))` the body
appends `rules1(*v)` — NOT the supplied `rules` closure, which the source
never calls. -/
def rewriteState (pi : R) (state : List (LSystemSymbol R)) : List (LSystemSymbol R) :=
  (state.map fun sym =>
    match sym with
    | LSystemSymbol.Constant c => [LSystemSymbol.Constant c]
    | LSystemSymbol.Variable v _ => rules1 pi v).flatten

/-- Embeds `proceed_system`. The `rules` parameter is accepted but, exactly as
in the source, never consulted: the body hardcodes `rules1`. After rewriting,
`dimensions` is recomputed by `get_drawing_dimensions` on the new state
(`none` propagates that pass's panic). -/
def proceed_system (pi : R) (trig : Trig R) (lsys : LSystem R)
    (rules : Variables → List (LSystemSymbol R)) : Option (LSystem R) :=
  let newState := rewriteState pi lsys.state
  match get_drawing_dimensions pi trig { state := newState, dimensions := lsys.dimensions } with
  | none => none
  | some d => some { state := newState, dimensions := d }

/-- `proceed_system` iterated `n` times, as `model` chains it. -/
def stepN (pi : R) (trig : Trig R) (rules : Variables → List (LSystemSymbol R)) :
    Nat → LSystem R → Option (LSystem R)
  | 0, lsys => some lsys
  | n + 1, lsys =>
    match proceed_system pi trig lsys rules with
    | none => none
    | some l => stepN pi trig rules n l

/-- Embeds `model`: the starting system rewritten six times with `rules1`. -/
def model (pi : R) (trig : Trig R) : Option (LSystem R) :=
  stepN pi trig (rules1 pi) 6 startSystem

/-- The full rewrite-then-interpret pipeline: `n` rewrites from `ax` with the
supplied rule table, then the interpretation pass; the result is the emitted
primitive sequence together with the computed extent. -/
def runPipeline (pi : R) (trig : Trig R) (ax : LSystem R)
    (rules : Variables → List (LSystemSymbol R)) (n : Nat) :
    Option (List (Line R) × (R × R)) :=
  match stepN pi trig rules n ax with
  | none => none
  | some sys =>
    match LSystem.draw pi trig sys with
    | none => none
    | some lines => some (lines, sys.dimensions)

/-! ### Specification-side machinery

`TraceSt` / `traceStep` follow the spec's description of the bounding-box
pass: the same turtle transitions, but recording the position reached after
every `DrawLine` instead of folding min/max corners on the fly.  `eff`,
`delta` and `minDepth` measure the save-stack discipline of an action
stream. -/

/-- Spec-side state: cursor, save stack, and the sequence of positions the
cursor has occupied after each position change, in order. -/
structure TraceSt (R : Type) where
  cursor : Config R
  stack : List (Config R)
  trace : List (R × R)
deriving DecidableEq

/-- Spec-side step: identical turtle transitions to `dimStep`, but a
`DrawLine` appends the new position to the trace. -/
def traceStep (trig : Trig R) (s : TraceSt R) : Action R → Option (TraceSt R)
  | Action.DrawLine len =>
    let np : R × R := (s.cursor.position.1 + trig.cos s.cursor.radians * len,
                       s.cursor.position.2 + trig.sin s.cursor.radians * len)
    some { cursor := { position := np, radians := s.cursor.radians }
           stack := s.stack
           trace := s.trace ++ [np] }
  | Action.Rotate rad =>
    some { s with cursor := { s.cursor with radians := s.cursor.radians + rad } }
  | Action.Push =>
    some { s with stack := s.cursor :: s.stack }
  | Action.Pop =>
    match s.stack with
    | [] => none
    | c :: rest => some { s with cursor := c, stack := rest }

/-- Per-symbol dispatch for the trace machine (symbol kind is irrelevant). -/
def traceSymbol (trig : Trig R) (s : TraceSt R) : LSystemSymbol R → Option (TraceSt R)
  | LSystemSymbol.Constant acts => runActions (traceStep trig) s acts
  | LSystemSymbol.Variable _ acts => runActions (traceStep trig) s acts

/-- The list of positions the bounding-box cursor reaches after each
`DrawLine` while replaying `lsys.state` from `axiom_config`. -/
def drawPositions (pi : R) (trig : Trig R) (lsys : LSystem R) : Option (List (R × R)) :=
  (runSymbols (traceSymbol trig)
      { cursor := startConfig pi, stack := [], trace := [] }
      lsys.state).map TraceSt.trace

/-- `max − min` of a list of coordinates, both folds seeded at `o` (the
origin coordinate). -/
def spread (o : R) (xs : List R) : R :=
  xs.foldl max o - xs.foldl min o

/-- Save-stack effect of one action: `Push` deepens the stack by one, `Pop`
shortens it by one, drawing and rotating leave it alone. -/
def eff : Action R → Int
  | Action.Push => 1
  | Action.Pop => -1
  | _ => 0

/-- Net save-stack effect of an action stream. -/
def delta : List (Action R) → Int
  | [] => 0
  | a :: rest => eff a + delta rest

/-- Minimum running save-stack effect over all prefixes of an action stream
(always `≤ 0` because of the empty prefix). -/
def minDepth : List (Action R) → Int
  | [] => 0
  | a :: rest => min 0 (eff a + minDepth rest)

/-- The action list a symbol contributes to the execution stream. -/
def symActions : LSystemSymbol R → List (Action R)
  | LSystemSymbol.Variable _ acts => acts
  | LSystemSymbol.Constant acts => acts

/-- The full action stream of a generation, in execution order. -/
def stateActions (state : List (LSystemSymbol R)) : List (Action R) :=
  (state.map symActions).flatten

/-- Number of `DrawLine` occurrences in an action stream (each emits exactly
one primitive in `LSystem::draw`). -/
def countDrawLine : List (Action R) → Nat
  | [] => 0
  | Action.DrawLine _ :: rest => 1 + countDrawLine rest
  | _ :: rest => countDrawLine rest

/-- Geometry of an emitted line, forgetting the color channel. -/
def Line.geom (l : Line R) : (R × R) × (R × R) :=
  (l.start, l.endp)

/-- Color-free view of an interpreter state: cursor, stack and the geometry
of the output. -/
def DrawSt.geom (s : DrawSt R) : Config R × List (Config R) × List ((R × R) × (R × R)) :=
  (s.cursor, s.stack, s.output.map Line.geom)

/-- A concrete computable trigonometry over `ℚ` used for closed evaluations:
`cos` is constantly `1` and `sin` constantly `0` (so `cos 0 = 1`,
`sin 0 = 0` as for the real functions). -/
def qTrig : Trig ℚ :=
  { cos := fun _ => 1, sin := fun _ => 0 }

/-- A one-symbol generation whose only action is `Pop`, executed with the
save stack empty. -/
def popSystem : LSystem ℚ :=
  { state := [LSystemSymbol.Constant [Action.Pop]], dimensions := (0, 0) }

/-! ### Specification-side relations and invariants -/

/-- Relation between a concrete bounding-box state and a trace state: same
cursor, same stack, and the corners are the min/max folds of the recorded
trace, seeded at the origin coordinate `0`. -/
def dimRel (s : DimSt R) (t : TraceSt R) : Prop :=
  s.cursor = t.cursor ∧ s.stack = t.stack ∧
  s.minC.1 = (t.trace.map Prod.fst).foldl min 0 ∧
  s.minC.2 = (t.trace.map Prod.snd).foldl min 0 ∧
  s.maxC.1 = (t.trace.map Prod.fst).foldl max 0 ∧
  s.maxC.2 = (t.trace.map Prod.snd).foldl max 0

/-- Invariant of the reachable generations of the built-in system: every
`Variable` symbol carries a push/pop-neutral action list, and the whole
action stream is balanced (net effect `0`, never dipping below the start
depth). -/
def GoodState (state : List (LSystemSymbol R)) : Prop :=
  (∀ v a, LSystemSymbol.Variable v a ∈ state → delta a = 0 ∧ minDepth a = 0) ∧
  delta (stateActions state) = 0 ∧ minDepth (stateActions state) = 0

/-! ### Helper lemmas -/

lemma if_lt_eq_min (a b : R) : (if b < a then b else a) = min a b := by
  rcases le_or_lt a b with h | h
  · rw [if_neg (not_lt.mpr h), min_eq_left h]
  · rw [if_pos h, min_eq_right h.le]

lemma if_gt_eq_max (a b : R) : (if b > a then b else a) = max a b := by
  rcases le_or_lt b a with h | h
  · rw [if_neg (not_lt.mpr h), max_eq_left h]
  · rw [if_pos h, max_eq_right h.le]

lemma dimStep_sim (trig : Trig R) {s : DimSt R} {t : TraceSt R} (h : dimRel s t)
    (a : Action R) :
    (dimStep trig s a = none ∧ traceStep trig t a = none) ∨
    ∃ s' t', dimStep trig s a = some s' ∧ traceStep trig t a = some t' ∧ dimRel s' t' := by
  obtain ⟨hc, hst, h1, h2, h3, h4⟩ := h
  cases a with
  | DrawLine len =>
    right
    refine ⟨_, _, rfl, rfl, ?_⟩
    refine ⟨by rw [hc], by rw [hst], ?_, ?_, ?_, ?_⟩ <;>
      simp [hc, h1, h2, h3, h4, if_lt_eq_min, if_gt_eq_max, List.foldl_append]
  | Rotate rad =>
    right
    exact ⟨_, _, rfl, rfl, by rw [hc], by rw [hst], h1, h2, h3, h4⟩
  | Push =>
    right
    exact ⟨_, _, rfl, rfl, hc, by rw [hc, hst], h1, h2, h3, h4⟩
  | Pop =>
    cases hs : s.stack with
    | nil =>
      left
      constructor
      · simp [dimStep, hs]
      · simp [traceStep, ← hst, hs]
    | cons c rest =>
      right
      refine ⟨{ s with cursor := c, stack := rest }, { t with cursor := c, stack := rest },
        ?_, ?_, rfl, rfl, h1, h2, h3, h4⟩
      · simp [dimStep, hs]
      · simp [traceStep, ← hst, hs]

lemma runActions_sim (trig : Trig R) {s : DimSt R} {t : TraceSt R} (h : dimRel s t)
    (acts : List (Action R)) :
    (runActions (dimStep trig) s acts = none ∧ runActions (traceStep trig) t acts = none) ∨
    ∃ s' t', runActions (dimStep trig) s acts = some s' ∧
      runActions (traceStep trig) t acts = some t' ∧ dimRel s' t' := by
  induction acts generalizing s t with
  | nil => exact Or.inr ⟨s, t, rfl, rfl, h⟩
  | cons a rest ih =>
    rcases dimStep_sim trig h a with ⟨hn1, hn2⟩ | ⟨s', t', hs', ht', h'⟩
    · left
      constructor <;> simp [runActions, hn1, hn2]
    · rcases ih h' with ⟨hn1, hn2⟩ | ⟨s'', t'', hs'', ht'', h''⟩
      · left
        constructor <;> simp [runActions, hs', ht', hn1, hn2]
      · right
        exact ⟨s'', t'', by simp [runActions, hs', hs''], by simp [runActions, ht', ht''], h''⟩

lemma dimSymbol_sim (trig : Trig R) {s : DimSt R} {t : TraceSt R} (h : dimRel s t)
    (sym : LSystemSymbol R) :
    (dimSymbol trig s sym = none ∧ traceSymbol trig t sym = none) ∨
    ∃ s' t', dimSymbol trig s sym = some s' ∧ traceSymbol trig t sym = some t' ∧ dimRel s' t' := by
  cases sym with
  | Constant acts => exact runActions_sim trig h acts
  | Variable v acts => exact runActions_sim trig h acts

lemma runSymbols_sim (trig : Trig R) {s : DimSt R} {t : TraceSt R} (h : dimRel s t)
    (syms : List (LSystemSymbol R)) :
    (runSymbols (dimSymbol trig) s syms = none ∧ runSymbols (traceSymbol trig) t syms = none) ∨
    ∃ s' t', runSymbols (dimSymbol trig) s syms = some s' ∧
      runSymbols (traceSymbol trig) t syms = some t' ∧ dimRel s' t' := by
  induction syms generalizing s t with
  | nil => exact Or.inr ⟨s, t, rfl, rfl, h⟩
  | cons sym rest ih =>
    rcases dimSymbol_sim trig h sym with ⟨hn1, hn2⟩ | ⟨s', t', hs', ht', h'⟩
    · left
      constructor <;> simp [runSymbols, hn1, hn2]
    · rcases ih h' with ⟨hn1, hn2⟩ | ⟨s'', t'', hs'', ht'', h''⟩
      · left
        constructor <;> simp [runSymbols, hs', ht', hn1, hn2]
      · right
        exact ⟨s'', t'', by simp [runSymbols, hs', hs''], by simp [runSymbols, ht', ht''], h''⟩

lemma minDepth_nonpos (acts : List (Action R)) : minDepth acts ≤ 0 := by
  cases acts with
  | nil => simp [minDepth]
  | cons a rest => simp [minDepth]

lemma delta_append (xs ys : List (Action R)) :
    delta (xs ++ ys) = delta xs + delta ys := by
  induction xs with
  | nil => simp [delta]
  | cons a xs ih => simp [delta, ih]; omega

lemma minDepth_append (xs ys : List (Action R)) :
    minDepth (xs ++ ys) = min (minDepth xs) (delta xs + minDepth ys) := by
  induction xs with
  | nil =>
    simp only [List.nil_append, minDepth, delta, zero_add]
    have := minDepth_nonpos (R := R) ys
    omega
  | cons a xs ih =>
    rw [List.cons_append, minDepth, ih, minDepth, delta]
    omega

lemma minDepth_le_delta (xs : List (Action R)) : minDepth xs ≤ delta xs := by
  induction xs with
  | nil => simp [minDepth, delta]
  | cons a rest ih => simp only [minDepth, delta]; omega

/-- Stack-discipline run lemma, generic in the machine: if the step function
treats the save stack as `Push`/`Pop` do in every pass of the source, then an
action stream whose minimum running depth stays within the current stack
executes without underflow and changes the stack length by `delta`. -/
lemma runActions_stack {St : Type} (stk : St → List (Config R)) (step : St → Action R → Option St)
    (hRot : ∀ s r, ∃ s', step s (Action.Rotate r) = some s' ∧ stk s' = stk s)
    (hLine : ∀ s l, ∃ s', step s (Action.DrawLine l) = some s' ∧ stk s' = stk s)
    (hPush : ∀ s, ∃ s' c, step s Action.Push = some s' ∧ stk s' = c :: stk s)
    (hPop : ∀ s c rest, stk s = c :: rest → ∃ s', step s Action.Pop = some s' ∧ stk s' = rest) :
    ∀ (acts : List (Action R)) (s : St),
      0 ≤ ((stk s).length : Int) + minDepth acts →
      ∃ s', runActions step s acts = some s' ∧
        ((stk s').length : Int) = (stk s).length + delta acts := by
  intro acts
  induction acts with
  | nil =>
    intro s _
    exact ⟨s, rfl, by simp [delta]⟩
  | cons a rest ih =>
    intro s h
    rw [minDepth] at h
    have hmp := minDepth_nonpos (R := R) rest
    cases a with
    | Rotate r =>
      obtain ⟨s1, hs1, hstk⟩ := hRot s r
      simp only [eff] at h
      obtain ⟨s2, hrun, hlen⟩ := ih s1 (by rw [hstk]; omega)
      refine ⟨s2, by simp [runActions, hs1, hrun], ?_⟩
      rw [hlen, hstk, delta]
      simp only [eff]
      omega
    | DrawLine l =>
      obtain ⟨s1, hs1, hstk⟩ := hLine s l
      simp only [eff] at h
      obtain ⟨s2, hrun, hlen⟩ := ih s1 (by rw [hstk]; omega)
      refine ⟨s2, by simp [runActions, hs1, hrun], ?_⟩
      rw [hlen, hstk, delta]
      simp only [eff]
      omega
    | Push =>
      obtain ⟨s1, c, hs1, hstk⟩ := hPush s
      simp only [eff] at h
      obtain ⟨s2, hrun, hlen⟩ := ih s1 (by rw [hstk]; simp only [List.length_cons]; omega)
      refine ⟨s2, by simp [runActions, hs1, hrun], ?_⟩
      rw [hlen, hstk, delta]
      simp only [eff, List.length_cons]
      omega
    | Pop =>
      simp only [eff] at h
      have hpos : 1 ≤ ((stk s).length : Int) := by omega
      cases hsk : stk s with
      | nil => rw [hsk] at hpos; simp at hpos
      | cons c rest2 =>
        obtain ⟨s1, hs1, hstk⟩ := hPop s c rest2 hsk
        obtain ⟨s2, hrun, hlen⟩ := ih s1 (by
          rw [hstk]
          rw [hsk] at h
          simp only [List.length_cons] at h
          omega)
        refine ⟨s2, by simp [runActions, hs1, hrun], ?_⟩
        rw [hlen, hstk, delta]
        simp only [eff, List.length_cons]
        omega

lemma dimStep_stack (trig : Trig R) :
    ∀ (acts : List (Action R)) (s : DimSt R),
      0 ≤ (s.stack.length : Int) + minDepth acts →
      ∃ s', runActions (dimStep trig) s acts = some s' ∧
        (s'.stack.length : Int) = s.stack.length + delta acts := by
  refine runActions_stack DimSt.stack (dimStep trig) ?_ ?_ ?_ ?_
  · exact fun s r => ⟨_, rfl, rfl⟩
  · exact fun s l => ⟨_, rfl, rfl⟩
  · exact fun s => ⟨_, s.cursor, rfl, rfl⟩
  · intro s c rest h
    exact ⟨{ s with cursor := c, stack := rest }, by simp [dimStep, h], rfl⟩

lemma drawStepConst_stack (trig : Trig R) :
    ∀ (acts : List (Action R)) (s : DrawSt R),
      0 ≤ (s.stack.length : Int) + minDepth acts →
      ∃ s', runActions (drawStepConst trig) s acts = some s' ∧
        (s'.stack.length : Int) = s.stack.length + delta acts := by
  refine runActions_stack DrawSt.stack (drawStepConst trig) ?_ ?_ ?_ ?_
  · exact fun s r => ⟨_, rfl, rfl⟩
  · exact fun s l => ⟨_, rfl, rfl⟩
  · exact fun s => ⟨_, s.cursor, rfl, rfl⟩
  · intro s c rest h
    exact ⟨{ s with cursor := c, stack := rest }, by simp [drawStepConst, h], rfl⟩

lemma drawStepVar_stack (trig : Trig R) :
    ∀ (acts : List (Action R)) (s : DrawSt R),
      0 ≤ (s.stack.length : Int) + minDepth acts →
      ∃ s', runActions (drawStepVar trig) s acts = some s' ∧
        (s'.stack.length : Int) = s.stack.length + delta acts := by
  refine runActions_stack DrawSt.stack (drawStepVar trig) ?_ ?_ ?_ ?_
  · exact fun s r => ⟨_, rfl, rfl⟩
  · exact fun s l => ⟨_, rfl, rfl⟩
  · exact fun s => ⟨_, s.cursor, rfl, rfl⟩
  · intro s c rest h
    exact ⟨{ s with cursor := c, stack := rest }, by simp [drawStepVar, h], rfl⟩

lemma stateActions_cons (sym : LSystemSymbol R) (rest : List (LSystemSymbol R)) :
    stateActions (sym :: rest) = symActions sym ++ stateActions rest := by
  simp [stateActions]

/-- Symbols-level stack-discipline lemma, generic over the per-symbol step. -/
lemma runSymbols_stack {St : Type} (stk : St → List (Config R))
    (symStep : St → LSystemSymbol R → Option St)
    (hsym : ∀ s sym, 0 ≤ ((stk s).length : Int) + minDepth (symActions sym) →
      ∃ s', symStep s sym = some s' ∧
        ((stk s').length : Int) = (stk s).length + delta (symActions sym)) :
    ∀ (syms : List (LSystemSymbol R)) (s : St),
      0 ≤ ((stk s).length : Int) + minDepth (stateActions syms) →
      ∃ s', runSymbols symStep s syms = some s' ∧
        ((stk s').length : Int) = (stk s).length + delta (stateActions syms) := by
  intro syms
  induction syms with
  | nil =>
    intro s _
    exact ⟨s, rfl, by simp [stateActions, delta]⟩
  | cons sym rest ih =>
    intro s h
    rw [stateActions_cons, minDepth_append] at h
    obtain ⟨s1, hs1, hlen1⟩ := hsym s sym (by omega)
    obtain ⟨s2, hs2, hlen2⟩ := ih s1 (by rw [hlen1]; omega)
    refine ⟨s2, by simp [runSymbols, hs1, hs2], ?_⟩
    rw [stateActions_cons, delta_append, hlen2, hlen1]
    omega

lemma dimSymbols_stack (trig : Trig R) (syms : List (LSystemSymbol R)) (s : DimSt R)
    (h : 0 ≤ (s.stack.length : Int) + minDepth (stateActions syms)) :
    ∃ s', runSymbols (dimSymbol trig) s syms = some s' ∧
      (s'.stack.length : Int) = s.stack.length + delta (stateActions syms) := by
  refine runSymbols_stack DimSt.stack (dimSymbol trig) ?_ syms s h
  intro s sym hh
  cases sym with
  | Constant acts => exact dimStep_stack trig acts s hh
  | Variable v acts => exact dimStep_stack trig acts s hh

lemma drawSymbols_stack (trig : Trig R) (syms : List (LSystemSymbol R)) (s : DrawSt R)
    (h : 0 ≤ (s.stack.length : Int) + minDepth (stateActions syms)) :
    ∃ s', runSymbols (drawSymbol trig) s syms = some s' ∧
      (s'.stack.length : Int) = s.stack.length + delta (stateActions syms) := by
  refine runSymbols_stack DrawSt.stack (drawSymbol trig) ?_ syms s h
  intro s sym hh
  cases sym with
  | Constant acts => exact drawStepConst_stack trig acts s hh
  | Variable v acts => exact drawStepVar_stack trig acts s hh

lemma rules1_profile (pi : R) (v : Variables) :
    delta (stateActions (rules1 pi v)) = 0 ∧ minDepth (stateActions (rules1 pi v)) = 0 := by
  cases v <;> simp [rules1, stateActions, symActions, delta, minDepth, eff]

lemma rules1_vars (pi : R) (v w : Variables) (a : List (Action R))
    (h : LSystemSymbol.Variable w a ∈ rules1 pi v) : delta a = 0 ∧ minDepth a = 0 := by
  cases v <;> simp only [rules1, List.mem_cons, List.not_mem_nil, or_false] at h
  case A => rcases h with h | h | h | h | h <;> cases h <;> simp [delta, minDepth, eff]
  case B => rcases h with h | h <;> cases h <;> simp [delta, minDepth, eff]

lemma stateActions_append (xs ys : List (LSystemSymbol R)) :
    stateActions (xs ++ ys) = stateActions xs ++ stateActions ys := by
  simp [stateActions]

lemma stateActions_nil : stateActions ([] : List (LSystemSymbol R)) = [] := rfl

lemma delta_nil : delta ([] : List (Action R)) = 0 := rfl

lemma minDepth_nil : minDepth ([] : List (Action R)) = 0 := rfl

lemma stateActions_constant (c : List (Action R)) :
    stateActions [LSystemSymbol.Constant c] = c := by
  simp [stateActions, symActions]

lemma rewriteState_cons (pi : R) (sym : LSystemSymbol R) (rest : List (LSystemSymbol R)) :
    rewriteState pi (sym :: rest) =
      (match sym with
        | LSystemSymbol.Constant c => [LSystemSymbol.Constant c]
        | LSystemSymbol.Variable v _ => rules1 pi v) ++ rewriteState pi rest := by
  simp [rewriteState]

/-- Rewriting preserves the net stack effect and the minimum running depth of
the action stream, provided every `Variable` symbol's own action list is
balanced (it is replaced wholesale by its production, which is balanced). -/
lemma rewrite_profile (pi : R) (state : List (LSystemSymbol R))
    (hv : ∀ v a, LSystemSymbol.Variable v a ∈ state → delta a = 0 ∧ minDepth a = 0) :
    delta (stateActions (rewriteState pi state)) = delta (stateActions state) ∧
    minDepth (stateActions (rewriteState pi state)) = minDepth (stateActions state) := by
  induction state with
  | nil => simp [rewriteState, stateActions]
  | cons sym rest ih =>
    obtain ⟨hd, hm⟩ := ih fun v a hm => hv v a (List.mem_cons_of_mem _ hm)
    cases sym with
    | Constant c =>
      have hcle := minDepth_le_delta (R := R) c
      rw [rewriteState_cons]
      simp only [stateActions_append, stateActions_cons, stateActions_nil,
        delta_append, minDepth_append, delta_nil, minDepth_nil, List.append_nil, add_zero,
        hd, hm, symActions]
      refine ⟨?_, ?_⟩ <;> first | trivial | omega
    | Variable v a =>
      have hva := hv v a (List.mem_cons_self _ _)
      have hr := rules1_profile pi v
      rw [rewriteState_cons]
      simp only [stateActions_append, stateActions_cons, delta_append, minDepth_append,
        hd, hm, hr.1, hr.2, hva.1, hva.2, symActions]
      refine ⟨?_, ?_⟩ <;> first | trivial | omega

/-- Every `Variable` symbol of a rewritten state comes from a `rules1`
production, so its action list is balanced. -/
lemma rewrite_vars (pi : R) (state : List (LSystemSymbol R)) :
    ∀ v a, LSystemSymbol.Variable v a ∈ rewriteState pi state →
      delta a = 0 ∧ minDepth a = 0 := by
  intro v a h
  rw [rewriteState] at h
  simp only [List.mem_flatten, List.mem_map] at h
  obtain ⟨l, ⟨sym, hsym, rfl⟩, hmem⟩ := h
  cases sym with
  | Constant c => simp at hmem
  | Variable w b => exact rules1_vars pi w v a hmem

/-- `GoodState` is preserved by one rewriting step. -/
lemma goodState_rewrite (pi : R) {state : List (LSystemSymbol R)} (h : GoodState state) :
    GoodState (rewriteState pi state) := by
  obtain ⟨hv, hd, hm⟩ := h
  obtain ⟨hd', hm'⟩ := rewrite_profile pi state hv
  exact ⟨rewrite_vars pi state, by rw [hd', hd], by rw [hm', hm]⟩

/-- The starting state is good. -/
lemma goodState_start : GoodState (startSystem (R := R)).state := by
  refine ⟨?_, by simp [startSystem, stateActions, symActions, delta, eff],
    by simp [startSystem, stateActions, symActions, minDepth, eff]⟩
  intro v a h
  simp only [startSystem, List.mem_singleton, LSystemSymbol.Variable.injEq] at h
  obtain ⟨rfl, rfl⟩ := h
  simp [delta, minDepth, eff]

/-- On a good state, `proceed_system` succeeds and produces the rewritten
(good) state. -/
lemma proceed_system_good (pi : R) (trig : Trig R) (lsys : LSystem R)
    (rules : Variables → List (LSystemSymbol R)) (h : GoodState lsys.state) :
    ∃ lsys', proceed_system pi trig lsys rules = some lsys' ∧
      lsys'.state = rewriteState pi lsys.state ∧ GoodState lsys'.state := by
  have hg := goodState_rewrite pi h
  obtain ⟨s', hs', hlen⟩ := dimSymbols_stack trig (rewriteState pi lsys.state)
    { cursor := startConfig pi, stack := [], minC := (0, 0), maxC := (0, 0) }
    (by simp [hg.2.2])
  have hdd : get_drawing_dimensions pi trig
      { state := rewriteState pi lsys.state, dimensions := lsys.dimensions } =
      some (s'.maxC.1 - s'.minC.1, s'.maxC.2 - s'.minC.2) := by
    rw [get_drawing_dimensions, hs']
    rfl
  refine ⟨{ state := rewriteState pi lsys.state,
            dimensions := (s'.maxC.1 - s'.minC.1, s'.maxC.2 - s'.minC.2) }, ?_, rfl, hg⟩
  simp only [proceed_system]
  rw [hdd]

/-- Iterating `proceed_system` from a good state always succeeds and lands in
a good state. -/
lemma stepN_good (pi : R) (trig : Trig R) (rules : Variables → List (LSystemSymbol R)) :
    ∀ (n : Nat) (lsys : LSystem R), GoodState lsys.state →
      ∃ sys, stepN pi trig rules n lsys = some sys ∧ GoodState sys.state := by
  intro n
  induction n with
  | zero => exact fun lsys h => ⟨lsys, rfl, h⟩
  | succ n ih =>
    intro lsys h
    obtain ⟨l1, hl1, _, hg⟩ := proceed_system_good pi trig lsys rules h
    obtain ⟨sys, hsys, hg2⟩ := ih l1 hg
    refine ⟨sys, ?_, hg2⟩
    rw [stepN, hl1]
    exact hsys

/-! ### Claim theorems -/

/-- Claim C1 (code-bug evidence): `proceed_system` never consults the rule
table it is given. With a supplied table mapping every variant to the empty
production, the result is identical to supplying `rules1`, and the new state
still holds the 5 symbols of the hardcoded `rules1 A` production where the
claim requires the supplied table's empty production (0 symbols). -/
theorem proceed_system_ignores_supplied_table :
    proceed_system (0 : ℚ) qTrig startSystem (fun _ => []) =
      proceed_system (0 : ℚ) qTrig startSystem (rules1 0) ∧
    (proceed_system (0 : ℚ) qTrig startSystem (fun _ => [])).map (fun s => s.state.length) =
      some 5 :=
  ⟨rfl, by decide⟩

/-- Claim C2: for every system state and every pair of rule functions `F` and
`G`, `proceed_system` produces identical results (new state and recomputed
dimensions): the engine never calls the supplied argument and always applies
the hardcoded `rules1`. -/
theorem proceed_system_rule_argument_irrelevant (pi : R) (trig : Trig R) (lsys : LSystem R)
    (F G : Variables → List (LSystemSymbol R)) :
    proceed_system pi trig lsys F = proceed_system pi trig lsys G := rfl

/-- Claim C3 (code-bug evidence): on a generation that executes `Pop` with the
save stack empty, both the interpretation pass and the bounding-box pass
abort with no result at all (the embedded image of the
`stack.pop().unwrap()` panic) — no typed, recoverable result carrying the
triggering symbol index is produced. -/
theorem pop_on_empty_stack_aborts :
    LSystem.draw 0 qTrig popSystem = none ∧ get_drawing_dimensions 0 qTrig popSystem = none :=
  ⟨rfl, rfl⟩

/-- Claim C4 (counterexample): the `Constant` and `Variable` branches of the
interpreter do not emit identical primitives for the same `DrawLine` action
from the same cursor state: the colors differ. -/
theorem constant_variable_drawline_outputs_differ :
    drawStepConst qTrig { cursor := { position := (0, 0), radians := 0 }, stack := [], output := [] }
        (Action.DrawLine 10) ≠
      drawStepVar qTrig { cursor := { position := (0, 0), radians := 0 }, stack := [], output := [] }
        (Action.DrawLine 10) := by
  intro h
  have h2 := congrArg (Option.map fun s => s.output.map Line.color) h
  simp [drawStepConst, drawStepVar] at h2

/-- Claim C4 (amended): for every cursor state and every action, the
`Constant` and `Variable` branches of the interpreter apply the same cursor
and stack transition and emit a primitive with the same geometry; the sole
difference is the emitted color: a `Constant` line carries no explicit color
while a `Variable` line carries explicit black `(0,0,0)`. -/
theorem constant_variable_steps_agree_except_color (trig : Trig R) (s : DrawSt R) :
    (∀ a : Action R,
      (drawStepConst trig s a).map DrawSt.geom = (drawStepVar trig s a).map DrawSt.geom) ∧
    (∀ len : R,
      (drawStepConst trig s (Action.DrawLine len)).map (fun s' => s'.output.map Line.color) =
        some (s.output.map Line.color ++ [none]) ∧
      (drawStepVar trig s (Action.DrawLine len)).map (fun s' => s'.output.map Line.color) =
        some (s.output.map Line.color ++ [some (0, 0, 0)])) := by
  constructor
  · intro a
    cases a with
    | DrawLine len => simp [drawStepConst, drawStepVar, DrawSt.geom, Line.geom]
    | Rotate rad => simp [drawStepConst, drawStepVar, DrawSt.geom]
    | Push => simp [drawStepConst, drawStepVar, DrawSt.geom]
    | Pop =>
      cases h : s.stack with
      | nil => simp [drawStepConst, drawStepVar, h]
      | cons c rest => simp [drawStepConst, drawStepVar, DrawSt.geom, h]
  · intro len
    constructor
    · simp [drawStepConst]
    · simp [drawStepVar]

/-- Claim C5 (counterexample): interpreting generation 1 of the built-in
system does not emit 6 primitives. -/
theorem generation_one_not_six_primitives :
    ((proceed_system (0 : ℚ) qTrig startSystem (rules1 0)).bind (LSystem.draw 0 qTrig)).map
        List.length ≠ some 6 := by decide

/-- Claim C5 (amended): starting from the built-in start symbol
`Variable(A, [DrawLine(10)])`, one rewrite with the built-in table yields a
state of exactly 5 symbols (the length of `A`'s production), and interpreting
that generation emits exactly 3 primitives — one per `DrawLine` occurrence
across those 5 symbols (the code has no `DrawCircle` action). -/
theorem generation_one_five_symbols_three_primitives (pi : R) (trig : Trig R) :
    (proceed_system pi trig startSystem (rules1 pi)).map (fun s => s.state.length) = some 5 ∧
    ((proceed_system pi trig startSystem (rules1 pi)).bind (LSystem.draw pi trig)).map
        List.length = some 3 ∧
    countDrawLine (stateActions (rewriteState pi (startSystem (R := R)).state)) = 3 :=
  ⟨rfl, rfl, rfl⟩

/-- Claim C7: executing `DrawLine len` computes the displacement
`(cos heading, sin heading) * len`, emits exactly one line from the current
position to `position + displacement`, and advances the cursor by the
displacement; in particular, with `cos 0 = 1` and `sin 0 = 0`, a lone
`DrawLine 10` from a cursor at the origin with heading `0` produces exactly
one line from `(0,0)` to `(10,0)`. -/
theorem drawline_advances_and_emits_one (trig : Trig R)
    (hc : trig.cos 0 = 1) (hs : trig.sin 0 = 0) :
    (∀ (s : DrawSt R) (len : R),
      drawStepVar trig s (Action.DrawLine len) =
        some { cursor := { position := (s.cursor.position.1 + trig.cos s.cursor.radians * len,
                                        s.cursor.position.2 + trig.sin s.cursor.radians * len),
                           radians := s.cursor.radians }
               stack := s.stack
               output := s.output ++
                 [{ start := s.cursor.position,
                    endp := (s.cursor.position.1 + trig.cos s.cursor.radians * len,
                             s.cursor.position.2 + trig.sin s.cursor.radians * len),
                    color := some (0, 0, 0) }] }) ∧
    (runActions (drawStepVar trig)
          { cursor := { position := (0, 0), radians := 0 }, stack := [], output := [] }
          [Action.DrawLine 10]).map DrawSt.output =
      some [{ start := (0, 0), endp := (10, 0), color := some (0, 0, 0) }] := by
  refine ⟨fun s len => rfl, ?_⟩
  simp [runActions, drawStepVar, hc, hs]

/-- Witness for C7 at the concrete rational trigonometry `qTrig`. -/
theorem drawline_advances_and_emits_one_witness :
    qTrig.cos 0 = 1 ∧ qTrig.sin 0 = 0 ∧
    (runActions (drawStepVar qTrig)
          { cursor := { position := (0, 0), radians := 0 }, stack := [], output := [] }
          [Action.DrawLine 10]).map DrawSt.output =
      some [{ start := (0, 0), endp := (10, 0), color := some (0, 0, 0) }] :=
  ⟨rfl, rfl, (drawline_advances_and_emits_one qTrig rfl rfl).2⟩

/-- Claim C10: for every fixed start system, rule table, and generation count
`n`, two runs of the rewrite-then-interpret pipeline produce identical
primitive sequences and identical computed extents — the pipeline is a pure
function of its inputs. -/
theorem pipeline_deterministic (pi : R) (trig : Trig R) (ax : LSystem R)
    (rules : Variables → List (LSystemSymbol R)) (n : Nat) :
    runPipeline pi trig ax rules n = runPipeline pi trig ax rules n := rfl

/-- Claim C6: for every generation, the bounding-box pass is exactly the
running-min/max computation over the positions visited after each `DrawLine`
(with `Rotate` updating the heading and `Push`/`Pop` saving/restoring the
cursor as in the interpreter), with both corners seeded at the origin
position, and it returns exactly `(max.x - min.x, max.y - min.y)`; both
passes abort on the same inputs. -/
theorem dimensions_eq_spread_of_position_trace (pi : R) (trig : Trig R) (lsys : LSystem R) :
    get_drawing_dimensions pi trig lsys =
      (drawPositions pi trig lsys).map fun ps =>
        (spread ((startConfig pi).position.1) (ps.map Prod.fst),
         spread ((startConfig pi).position.2) (ps.map Prod.snd)) := by
  have h0 : dimRel (R := R)
      { cursor := startConfig pi, stack := [], minC := (0, 0), maxC := (0, 0) }
      { cursor := startConfig pi, stack := [], trace := [] } := by
    simp [dimRel]
  rcases runSymbols_sim trig h0 lsys.state with ⟨hn1, hn2⟩ | ⟨s', t', hs', ht', hrel⟩
  · unfold get_drawing_dimensions drawPositions
    rw [hn1, hn2]
    rfl
  · obtain ⟨hc, hst, h1, h2, h3, h4⟩ := hrel
    unfold get_drawing_dimensions drawPositions
    rw [hs', ht']
    simp [spread, startConfig, h1, h2, h3, h4]

/-- Claim C9: starting from the built-in start symbol with the built-in rule
table `rules1`, after any number `n ≥ 0` of rewrites, replaying the resulting
generation never executes a `Pop` on an empty save stack (both passes return
`some`) and both passes end with the save stack empty, so the
`stack.pop().unwrap()` calls in the interpreter and in the bounding-box pass
cannot panic on these reachable states. -/
theorem builtin_system_stack_safe (pi : R) (trig : Trig R) (n : Nat) :
    ∃ sys, stepN pi trig (rules1 pi) n startSystem = some sys ∧
      (∃ d, runSymbols (dimSymbol trig)
          { cursor := startConfig pi, stack := [], minC := (0, 0), maxC := (0, 0) }
          sys.state = some d ∧ d.stack = []) ∧
      (∃ f, runSymbols (drawSymbol trig)
          { cursor := { startConfig pi with
              position := ((startConfig pi).position.1,
                           (startConfig pi).position.2 - sys.dimensions.2 * (1 / 2)) }
            stack := [], output := [] }
          sys.state = some f ∧ f.stack = []) ∧
      (get_drawing_dimensions pi trig sys).isSome = true ∧
      (LSystem.draw pi trig sys).isSome = true := by
  obtain ⟨sys, hsys, hv, hd, hm⟩ := stepN_good pi trig (rules1 pi) n startSystem goodState_start
  obtain ⟨d, hdrun, hdlen⟩ := dimSymbols_stack trig sys.state
    { cursor := startConfig pi, stack := [], minC := (0, 0), maxC := (0, 0) }
    (by simp [hm])
  obtain ⟨f, hfrun, hflen⟩ := drawSymbols_stack trig sys.state
    { cursor := { startConfig pi with
        position := ((startConfig pi).position.1,
                     (startConfig pi).position.2 - sys.dimensions.2 * (1 / 2)) }
      stack := [], output := [] }
    (by simp [hm])
  have hdstack : d.stack = [] := by
    rw [hd] at hdlen
    simp only [List.length_nil] at hdlen
    have : d.stack.length = 0 := by omega
    exact List.length_eq_zero.mp this
  have hfstack : f.stack = [] := by
    rw [hd] at hflen
    simp only [List.length_nil] at hflen
    have : f.stack.length = 0 := by omega
    exact List.length_eq_zero.mp this
  refine ⟨sys, hsys, ⟨d, hdrun, hdstack⟩, ⟨f, hfrun, hfstack⟩, ?_, ?_⟩
  · rw [get_drawing_dimensions, hdrun]
    rfl
  · simp only [LSystem.draw]
    rw [hfrun]
    rfl


end Dollop
